import Mathlib

/-!
Verification of the CAPM trading bot (Task2-bot.py).

This file shallowly embeds the decision core of the bot: the mean-variance
performance evaluator, the portfolio-optimality search over best-quote
subsets, the feasibility checks, the market-making price and margin
computations, the phase guards, and the order-acknowledgement handlers.
Securities are indexed by Fin n in the sorted-by-item order the source uses
everywhere; money amounts are integers (cents) or rationals (dollars), and
the real-valued margin curve is embedded over the reals.
-/

set_option autoImplicit false

variable {n : ℕ}

/-- Order side (fmclient OrderSide as used by the bot). -/
inductive OrderSide where
  | buy
  | sell
deriving DecidableEq, Repr

/-- Order type (fmclient OrderType as used by the bot). -/
inductive OrderType where
  | limit
  | cancel
deriving DecidableEq, Repr

/-- The statistics the bot derives once per session (initialised /
received_session_info): expected payoff vector, covariance matrix
(both in dollars, indexed in sorted security order) and the risk penalty
passed to the constructor. -/
structure PerfModel (n : ℕ) where
  expPayoffs : Fin n → ℚ
  cov : Fin n → Fin n → ℚ
  riskPenalty : ℚ

/-- A holdings snapshot as delivered by the venue: cash and cash available
in cents, units and units available per security. -/
structure Holdings (n : ℕ) where
  cash : ℤ
  cashAvailable : ℤ
  units : Fin n → ℤ
  unitsAvailable : Fin n → ℤ

/-- A prospective order as built by `_make_order` (line 561): side, market,
price in cents; `units` defaults to 1 as in the source. -/
structure ProspOrder (n : ℕ) where
  side : OrderSide
  market : Fin n
  price : ℤ
  units : ℤ := 1
deriving DecidableEq, Repr

/-- `to_dollar` (line 708): cents to dollars. -/
def to_dollar (cents : ℤ) : ℚ := (cents : ℚ) / 100

/-- `_adj_cash` (lines 616-626): walk the order list, subtracting the dollar
price of each buy and adding the dollar price of each sell. -/
def adj_cash (cash : ℚ) (orders : List (ProspOrder n)) : ℚ :=
  orders.foldl
    (fun c o =>
      if o.side = OrderSide.buy then c - to_dollar o.price else c + to_dollar o.price)
    cash

/-- The per-security adjustment `_adj_holdings` (lines 629-644) accumulates:
+1 for each buy order on the security, -1 for each sell order on it
(independently of the order's unit count, as in the source). -/
def order_adjust (orders : List (ProspOrder n)) (i : Fin n) : ℚ :=
  orders.foldl
    (fun a o =>
      if o.market = i then (if o.side = OrderSide.buy then a + 1 else a - 1) else a)
    0

/-- `_adj_holdings` (lines 629-644): unit-holdings vector plus the
order adjustment vector. -/
def adj_holdings (units : Fin n → ℚ) (orders : List (ProspOrder n)) : Fin n → ℚ :=
  fun i => units i + order_adjust orders i

/-- The arithmetic of `_find_performance` (lines 665-669):
dot(units, expPayoffs) + cash - riskPenalty * dot(units, cov * units). -/
def find_performance_of (M : PerfModel n) (units : Fin n → ℚ) (cash : ℚ) : ℚ :=
  ((∑ i, units i * M.expPayoffs i) + cash)
    - M.riskPenalty * (∑ i, units i * (∑ j, M.cov i j * units j))

/-- `_find_performance(holdings)` with the default `prosp_orders = False`
(lines 646-676): performance of the raw holdings. -/
def find_performance_base (M : PerfModel n) (h : Holdings n) : ℚ :=
  find_performance_of M (fun i => (h.units i : ℚ)) (to_dollar h.cash)

/-- `_find_performance(holdings, prosp_orders)` (lines 646-676). The source
guards the adjustment with `if prosp_orders:`, which in Python is false for
the empty list, so cash and units are adjusted only when the list is
non-empty. -/
def find_performance (M : PerfModel n) (h : Holdings n)
    (prosp_orders : List (ProspOrder n)) : ℚ :=
  if prosp_orders.isEmpty then find_performance_base M h
  else
    find_performance_of M (adj_holdings (fun i => (h.units i : ℚ)) prosp_orders)
      (adj_cash (to_dollar h.cash) prosp_orders)

/-- The order-lifecycle state the acknowledgement handlers touch:
`_order_count` and `_waiting_for_order`. -/
structure BotState where
  orderCount : ℤ
  waitingForOrder : Bool
deriving DecidableEq, Repr

/-- `order_accepted` (lines 125-131): a limit acceptance only logs; a cancel
acceptance clears `_waiting_for_order` and decrements `_order_count`. -/
def order_accepted (s : BotState) (otype : OrderType) : BotState :=
  match otype with
  | OrderType.limit => s
  | OrderType.cancel => { orderCount := s.orderCount - 1, waitingForOrder := false }

/-- Static per-market constraint data used by `order_rejected`. -/
structure MarketSpec where
  minPrice : ℤ
  maxPrice : ℤ
  minUnits : ℤ
  maxUnits : ℤ
  priceTick : ℤ
  unitTick : ℤ
deriving DecidableEq, Repr

/-- The reason `order_rejected` reports for a rejection. -/
inductive RejectReason where
  | priceOutOfRange
  | unitsOutOfRange
  | priceTickViolation
  | unitTickViolation
deriving DecidableEq, Repr

/-- The reason classification of `order_rejected` (lines 140-148), including
the source's comparison `price < market.min_units` in the units-range branch.
Returns none when no branch of the if/elif chain fires. -/
def classify_rejection (m : MarketSpec) (price units : ℤ) : Option RejectReason :=
  if price > m.maxPrice ∨ price < m.minPrice then some RejectReason.priceOutOfRange
  else if units > m.maxUnits ∨ price < m.minUnits then some RejectReason.unitsOutOfRange
  else if ¬ price % m.priceTick = 0 then some RejectReason.priceTickViolation
  else if ¬ units % m.unitTick = 0 then some RejectReason.unitTickViolation
  else none

/-- The state effect of `order_rejected` (line 150): decrement
`_order_count`; the order is dropped, nothing is resubmitted. -/
def order_rejected (s : BotState) : BotState :=
  { s with orderCount := s.orderCount - 1 }

/-- A best quote visible in the book (a value of `_best_bid_dict` or
`_best_ask_dict`): a not-owned pending order's side, market and price. -/
structure Quote (n : ℕ) where
  side : OrderSide
  market : Fin n
  price : ℤ
deriving DecidableEq, Repr

/-- `_flip_oside` (lines 471-481): for each quote build, via `_make_order`
with default unit count 1, the order on the opposite side at the same
market and price. -/
def flip_oside (l : List (Quote n)) : List (ProspOrder n) :=
  l.map (fun q =>
    { side := if q.side = OrderSide.sell then OrderSide.buy else OrderSide.sell,
      market := q.market, price := q.price })

/-- The cash requirement `_can_react` (lines 420-422) accumulates: the sum
of the prices of the buy orders in the list. -/
def buy_cash_req (orders : List (ProspOrder n)) : ℤ :=
  orders.foldl (fun a o => if o.side = OrderSide.buy then a + o.price else a) 0

/-- The per-market requirement `_can_react` (lines 432-434) accumulates:
one unit per sell order referencing the market. -/
def sell_units_req (orders : List (ProspOrder n)) (i : Fin n) : ℤ :=
  orders.foldl
    (fun a o => if o.side = OrderSide.sell ∧ o.market = i then a + 1 else a) 0

/-- `_can_react` (lines 409-441): false when the buy-side cash requirement
exceeds cash available, or when some market's sell-order count exceeds its
units available; true otherwise. -/
def can_react (h : Holdings n) (orders : List (ProspOrder n)) : Bool :=
  if buy_cash_req orders > h.cashAvailable then false
  else if (List.finRange n).any
      (fun i => decide (sell_units_req orders i > h.unitsAvailable i)) then false
  else true

/-- itertools.combinations order: all size-r sublists of a list, those
containing the head (in order) before those that do not. -/
def combinations {α : Type} : ℕ → List α → List (List α)
  | 0, _ => [[]]
  | _ + 1, [] => []
  | r + 1, x :: xs => (combinations r xs).map (fun c => x :: c) ++ combinations (r + 1) xs

/-- The enumeration of line 97: all subsets of the best-quote list, in
increasing subset size, then in itertools combination order. -/
def all_combos (qs : List (Quote n)) : List (List (Quote n)) :=
  (List.range (qs.length + 1)).flatMap (fun r => combinations r qs)

/-- One iteration of the loop of `is_portfolio_optimal` (lines 99-109): the
accumulator holds the best combo found so far (`best_combo`) and the running
performance bar (`curr_performance`); a combo replaces it only when its
flipped counter-trades yield strictly greater performance and `_can_react`
passes. -/
def opt_step (M : PerfModel n) (h : Holdings n)
    (acc : Option (List (Quote n)) × ℚ) (combo : List (Quote n)) :
    Option (List (Quote n)) × ℚ :=
  let resp := flip_oside combo
  let p := find_performance M h resp
  if acc.2 < p ∧ can_react h resp = true then (some combo, p) else acc

/-- The search of `is_portfolio_optimal` (lines 80-121), returning the
`best_combo` the loop ends with (none when holdings are optimal). -/
def is_portfolio_optimal_combo (M : PerfModel n) (h : Holdings n)
    (qs : List (Quote n)) : Option (List (Quote n)) :=
  ((all_combos qs).foldl (opt_step M h) (none, find_performance_base M h)).1

/-- The boolean verdict of `is_portfolio_optimal` (lines 112-121): true
exactly when the loop found no combo. -/
def is_portfolio_optimal (M : PerfModel n) (h : Holdings n)
    (qs : List (Quote n)) : Bool :=
  (is_portfolio_optimal_combo M h qs).isNone

/-- The performance reached by responding to a combo: the value
`_find_performance(holdings, resp_orders)` the loop compares. -/
def improvement (M : PerfModel n) (h : Holdings n) (c : List (Quote n)) : ℚ :=
  find_performance M h (flip_oside c)

/-- A combo is a candidate when its counter-trades strictly improve on the
baseline performance and `_can_react` passes (line 107). -/
def is_candidate (M : PerfModel n) (h : Holdings n) (c : List (Quote n)) : Prop :=
  find_performance_base M h < improvement M h c ∧ can_react h (flip_oside c) = true

/-- `_make_mm_order`'s price computation (lines 350-364): buy prices are
rounded down to the tick after subtracting the margin, sell prices rounded
up after adding it. -/
def make_mm_price (oside : OrderSide) (prices margin : ℚ) (tick : ℤ) : ℤ :=
  if oside = OrderSide.buy then ⌊(prices - margin) / (tick : ℚ)⌋ * tick
  else ⌈(prices + margin) / (tick : ℚ)⌉ * tick

/-- The buy-side quoting decision of `_mm_strategy` (lines 291-298): given
the fair buy price in dollars, quote only when its cent value exceeds the
margin, at the price `_make_mm_order` computes from the cent value. -/
def mm_buy_quote (fair margin : ℚ) (tick : ℤ) : Option ℤ :=
  if 100 * fair > margin then some (make_mm_price OrderSide.buy (100 * fair) margin tick)
  else none

/-- The sell-side quoting decision of `_mm_strategy` (lines 303-320): a
positive fair sell price is quoted with price argument 0; otherwise a
negative fair sell price whose cent magnitude exceeds the margin is quoted
with price argument that magnitude; otherwise no quote. -/
def mm_sell_quote (fair margin : ℚ) (tick : ℤ) : Option ℤ :=
  if 100 * fair > 0 then some (make_mm_price OrderSide.sell 0 margin tick)
  else if 100 * (-fair) > margin then
    some (make_mm_price OrderSide.sell (100 * (-fair)) margin tick)
  else none

/-- `_find_margin` (lines 339-348) over the reals: with
b = sessionTime * MM_PROPORTION / 2, the margin is
ceil(marginMax / (1 + exp((1/sqrt b) * (t - b)))). -/
noncomputable def find_margin (sessionTime mmProportion marginMax t : ℝ) : ℤ :=
  ⌈marginMax /
    (1 + Real.exp (1 / Real.sqrt (sessionTime * mmProportion / 2)
      * (t - sessionTime * mmProportion / 2)))⌉

/-- `_mm_condition` (lines 252-269) as a function of the elapsed time, the
session parameters and `_order_count`. The first component is the returned
boolean; the second records whether the `_clear_orders()` call of line 266
was reached. -/
def mm_condition (sessionTime mmProportion t : ℚ) (orderCount : ℤ) : Bool × Bool :=
  if t < 2 / 30 then (false, false)
  else if t < mmProportion * sessionTime ∧ orderCount = 0 then (true, false)
  else if t < mmProportion * sessionTime ∧ ¬ orderCount = 0 then (false, true)
  else (false, false)

/-- `_reactive_condition` (lines 368-385) as a function of the elapsed time,
the session parameters and the order count the function itself recomputes at
line 372 as the number of owned orders in the current book. -/
def reactive_condition (sessionTime mmProportion t : ℚ) (orderCount : ℤ) : Bool :=
  if t < 2 / 30 then false
  else if mmProportion * sessionTime < t ∧ orderCount = 0 then true
  else if ¬ orderCount = 0 then false
  else false

/-- `_check_holdings` (lines 577-600): a buy fails when available cash is
below price * units, a sell fails when available units are below the unit
count; anything else passes. -/
def check_holdings (oside : OrderSide) (price units cashAvailable unitsAvailable : ℤ) :
    Bool :=
  if oside = OrderSide.buy ∧ cashAvailable < price * units then false
  else if oside = OrderSide.sell ∧ unitsAvailable < units then false
  else true

/-- Line 240: the note market id is the last element of the sorted market-id
list, i.e. the highest-numbered market. -/
def note_id (marketIds : List ℤ) : Option ℤ :=
  (List.insertionSort (fun a b => a ≤ b) marketIds).getLast?

/-- The note-trading branch of `received_holdings` (lines 240-246), given
the holdings figures of the note market (the market `note_id` selects):
when cash is below 1000 cents, more than 2 note units are held and
`_order_count` is zero, a sell order of 2 units at 495 is built; if
`_check_holdings` passes it is sent and `_order_count` grows by 2. Returns
the submitted order data (side, price, units) and the new order count. -/
def received_holdings_note_trade (cash cashAvailable noteUnits noteUnitsAvailable
    orderCount : ℤ) : Option (OrderSide × ℤ × ℤ) × ℤ :=
  if cash < 1000 ∧ noteUnits > 2 ∧ orderCount = 0 then
    if check_holdings OrderSide.sell 495 2 cashAvailable noteUnitsAvailable = true then
      (some (OrderSide.sell, 495, 2), orderCount + 2)
    else (none, orderCount)
  else (none, orderCount)

/-- The invariant of the search loop of `is_portfolio_optimal` after the
combos in `done` have been processed: a `none` accumulator carries the
baseline performance bar and certifies that no processed combo is a
candidate; a `some b` accumulator carries the bar `improvement b` and
certifies that `b` is a candidate occurring in `done`, that every earlier
candidate improves strictly less, and that every later candidate improves
no more. -/
def opt_inv (M : PerfModel n) (h : Holdings n)
    (done : List (List (Quote n))) (acc : Option (List (Quote n)) × ℚ) : Prop :=
  (acc.1 = none →
    acc.2 = find_performance_base M h ∧ ∀ c ∈ done, ¬ is_candidate M h c) ∧
  (∀ b, acc.1 = some b →
    acc.2 = improvement M h b ∧ is_candidate M h b ∧
    ∃ l1 l2, done = l1 ++ b :: l2 ∧
      (∀ c ∈ l1, is_candidate M h c → improvement M h c < improvement M h b) ∧
      (∀ c ∈ l2, is_candidate M h c → improvement M h c ≤ improvement M h b))

/-- One-security model used by witnesses: expected payoff 2 dollars, zero
covariance, zero risk penalty. -/
def exModel : PerfModel 1 := ⟨fun _ => 2, fun _ _ => 0, 0⟩

/-- Witness holdings: no cash, 1000 cents available, no units. -/
def exHoldings : Holdings 1 := ⟨0, 1000, fun _ => 0, fun _ => 0⟩

/-- Witness quote: a best ask of 100 cents on the only security. -/
def exQuote : Quote 1 := ⟨OrderSide.sell, 0, 100⟩

/-- Claim C7: evaluating the performance function with an empty
prospective-order list yields exactly the value of evaluating it with no
prospective orders, for every model and holdings state. -/
theorem find_performance_nil_eq_base (M : PerfModel n) (h : Holdings n) :
    find_performance M h [] = find_performance_base M h := rfl

/-- Claim C2, counterexample: accepting a limit order does not clear
`_waiting_for_order`; with the flag set and order count 3, the handler
leaves the flag set. -/
theorem order_accepted_limit_cex :
    ¬ ((order_accepted ⟨3, true⟩ OrderType.limit).waitingForOrder = false) := by
  decide

/-- Claim C2, amended: accepting a limit order leaves the lifecycle state
unchanged (in particular it does not clear `awaitingResponse`); accepting a
cancel decrements the order count by exactly one and clears
`awaitingResponse`. -/
theorem order_accepted_ack (s : BotState) (ot : OrderType) :
    (ot = OrderType.limit → order_accepted s ot = s) ∧
    (ot = OrderType.cancel →
      (order_accepted s ot).orderCount = s.orderCount - 1 ∧
      (order_accepted s ot).waitingForOrder = false) := by
  cases ot <;> simp [order_accepted]

/-- Claim C10: among acceptances, only cancel orders change the order count
(by minus one) or the waiting flag; a limit acceptance changes neither. -/
theorem order_accepted_frame (s : BotState) (ot : OrderType) :
    (order_accepted s ot).orderCount =
      (if ot = OrderType.cancel then s.orderCount - 1 else s.orderCount) ∧
    (order_accepted s ot).waitingForOrder =
      (if ot = OrderType.cancel then false else s.waitingForOrder) := by
  cases ot <;> simp [order_accepted]

/-- Claim C8: on the market with price range [1, 1000], unit range [1, 100]
and ticks 1, a rejected order of 0 units at price 500 violates the unit
lower bound (0 < minUnits), yet the classifier of `order_rejected` reports
no reason, because its units-range branch compares the price, not the
units, against `min_units`; the order count is still decremented. -/
theorem order_rejected_units_range_bug :
    classify_rejection ⟨1, 1000, 1, 100, 1, 1⟩ 500 0 = none ∧
    (0 : ℤ) < MarketSpec.minUnits ⟨1, 1000, 1, 100, 1, 1⟩ ∧
    (order_rejected ⟨3, false⟩).orderCount = 2 := by
  decide

/-- Claim C9: with cash below 1000 cents, strictly more than 2 note units,
a zero order count and a passing holdings check, `received_holdings`
submits a sell of 2 units at 495 in the note market and the order count
becomes 2. -/
theorem received_holdings_note_trade_spec (cash cashAvail units unitsAvail oc : ℤ)
    (hcash : cash < 1000) (hunits : 2 < units) (hoc : oc = 0)
    (hcheck : check_holdings OrderSide.sell 495 2 cashAvail unitsAvail = true) :
    received_holdings_note_trade cash cashAvail units unitsAvail oc =
      (some (OrderSide.sell, 495, 2), 2) := by
  subst hoc
  unfold received_holdings_note_trade
  rw [if_pos ⟨hcash, hunits, rfl⟩, if_pos hcheck]
  norm_num

/-- Claim C9, witness: cash 900, 5 note units (5 available), order count 0. -/
theorem received_holdings_note_trade_spec_witness :
    received_holdings_note_trade 900 50 5 5 0 = (some (OrderSide.sell, 495, 2), 2) :=
  received_holdings_note_trade_spec 900 50 5 5 0 (by decide) (by decide) rfl (by decide)

/-- Claim C4, counterexample: at elapsed time 0 with order count 0 (session
time 10, phase fraction 1/5), the time lies in [0, phaseFraction *
sessionDuration) and the order count is zero, yet the guard returns false:
the guard is false on all of [0, 2/30). -/
theorem mm_condition_window_cex :
    ¬ (((mm_condition 10 (1 / 5) 0 0).1 = true) ↔
      ((0 : ℚ) ≤ 0 ∧ (0 : ℚ) < (1 / 5) * 10 ∧ (0 : ℤ) = 0)) := by
  intro hiff
  have h2 : (mm_condition 10 (1 / 5) 0 0).1 = true := hiff.mpr (by norm_num)
  have h3 : mm_condition 10 (1 / 5) 0 0 = (false, false) := by
    unfold mm_condition
    rw [if_pos (by norm_num : (0 : ℚ) < 2 / 30)]
  rw [h3] at h2
  exact absurd h2 (by decide)

/-- Claim C4, amended: the market-making guard returns true exactly when
the elapsed time lies in [2/30, phaseFraction * sessionDuration) and the
order count is zero; when the elapsed time lies in that window but the
order count is non-zero it reaches the clear-all-orders call and returns
false. -/
theorem mm_condition_spec (S P t : ℚ) (oc : ℤ) :
    ((mm_condition S P t oc).1 = true ↔ (2 / 30 ≤ t ∧ t < P * S ∧ oc = 0)) ∧
    ((2 / 30 ≤ t ∧ t < P * S ∧ ¬ oc = 0) → mm_condition S P t oc = (false, true)) := by
  unfold mm_condition
  split_ifs with h1 h2 h3
  · refine ⟨⟨fun h => absurd h (by decide), fun h => absurd h1 (not_lt.mpr h.1)⟩,
      fun h => absurd h1 (not_lt.mpr h.1)⟩
  · exact ⟨⟨fun _ => ⟨le_of_not_lt h1, h2.1, h2.2⟩, fun _ => rfl⟩,
      fun h => absurd h2.2 h.2.2⟩
  · exact ⟨⟨fun h => absurd h (by decide), fun h => absurd h.2.2 h3.2⟩,
      fun _ => rfl⟩
  · refine ⟨⟨fun h => absurd h (by decide), fun h => absurd ⟨h.2.1, h.2.2⟩ h2⟩,
      fun h => absurd ⟨h.2.1, h.2.2⟩ h3⟩

/-- Claim C5, counterexample: at elapsed time exactly phaseFraction *
sessionDuration (2 minutes with session time 10 and fraction 1/5) and zero
owned orders, the guard returns false although the claimed condition (at or
after the boundary, zero orders) holds: the comparison is strict. -/
theorem reactive_condition_boundary_cex :
    ¬ ((reactive_condition 10 (1 / 5) 2 0 = true) ↔
      ((1 / 5 : ℚ) * 10 ≤ 2 ∧ (0 : ℤ) = 0)) := by
  intro hiff
  have h2 : reactive_condition 10 (1 / 5) 2 0 = true := hiff.mpr (by norm_num)
  have h3 : reactive_condition 10 (1 / 5) 2 0 = false := by
    unfold reactive_condition
    rw [if_neg (by norm_num : ¬ (2 : ℚ) < 2 / 30),
      if_neg (by norm_num : ¬ ((1 / 5 : ℚ) * 10 < 2 ∧ (0 : ℤ) = 0))]
    simp
  rw [h3] at h2
  exact absurd h2 (by decide)

/-- Claim C5, amended: the reactive guard returns true exactly when the
elapsed time is at least 2/30, strictly after phaseFraction *
sessionDuration, and the recomputed count of owned orders in the current
book is zero. -/
theorem reactive_condition_spec (S P t : ℚ) (oc : ℤ) :
    reactive_condition S P t oc = true ↔ (2 / 30 ≤ t ∧ P * S < t ∧ oc = 0) := by
  unfold reactive_condition
  split_ifs with h1 h2 h3 <;>
    constructor <;>
    intro h <;>
    first
      | rfl
      | exact absurd h (by decide)
      | exact ⟨le_of_not_lt h1, h2.1, h2.2⟩
      | exact absurd h1 (not_lt.mpr h.1)
      | exact absurd h.2.2 h3
      | exact absurd h3 h.2.2
      | exact absurd ⟨h.2.1, h.2.2⟩ h2

/-- `_make_mm_order` on the buy side rounds down to the tick. -/
theorem make_mm_price_buy (p m : ℚ) (t : ℤ) :
    make_mm_price OrderSide.buy p m t = ⌊(p - m) / (t : ℚ)⌋ * t := by
  simp [make_mm_price]

/-- `_make_mm_order` on the sell side rounds up to the tick. -/
theorem make_mm_price_sell (p m : ℚ) (t : ℤ) :
    make_mm_price OrderSide.sell p m t = ⌈(p + m) / (t : ℚ)⌉ * t := by
  simp [make_mm_price]

/-- Claim C3, counterexample: for a security with positive fair sell price
1 dollar (100 cents), margin 50 and tick 1, the strategy quotes a sell at
50, not at ceil((100 + 50)/1)*1 = 150 as the claim's formula demands. -/
theorem mm_sell_quote_formula_cex :
    mm_sell_quote 1 50 1 = some 50 ∧
    ¬ ((50 : ℤ) = ⌈((|(100 : ℚ) * 1| + 50) / ((1 : ℤ) : ℚ))⌉ * 1) := by
  constructor
  · unfold mm_sell_quote
    rw [if_pos (by norm_num : (100 : ℚ) * 1 > 0), make_mm_price_sell]
    norm_num
  · norm_num

/-- Claim C3, amended: every submitted buy quote has price
floor((fairBuy_cents - margin)/tick)*tick as claimed; every submitted sell
quote has price ceil((x + margin)/tick)*tick where x is 0 when the fair
sell price is positive and the cent magnitude of the fair sell price when
it is not. -/
theorem mm_quote_prices_spec (fair fairS margin : ℚ) (tick : ℤ) :
    (∀ p : ℤ, mm_buy_quote fair margin tick = some p →
      p = ⌊(100 * fair - margin) / (tick : ℚ)⌋ * tick) ∧
    (∀ p : ℤ, mm_sell_quote fairS margin tick = some p →
      p = ⌈(((if 0 < 100 * fairS then 0 else |100 * fairS|) + margin) / (tick : ℚ))⌉
        * tick) := by
  constructor
  · intro p hp
    unfold mm_buy_quote at hp
    split_ifs at hp with h1
    rw [make_mm_price_buy] at hp
    exact (Option.some_inj.mp hp).symm
  · intro p hp
    unfold mm_sell_quote at hp
    split_ifs at hp with h1 h2
    · rw [make_mm_price_sell] at hp
      rw [if_pos h1]
      exact (Option.some_inj.mp hp).symm
    · rw [make_mm_price_sell] at hp
      rw [if_neg h1, abs_of_nonpos (by push_neg at h1; linarith)]
      have hneg : -(100 * fairS) = 100 * -fairS := by ring
      rw [hneg]
      exact (Option.some_inj.mp hp).symm

/-- Under the invariant, the running performance bar never drops below the
baseline. -/
lemma opt_inv_base_le (M : PerfModel n) (h : Holdings n)
    (done : List (List (Quote n))) (acc : Option (List (Quote n)) × ℚ)
    (hinv : opt_inv M h done acc) : find_performance_base M h ≤ acc.2 := by
  rcases hacc : acc.1 with _ | b
  · exact le_of_eq (hinv.1 hacc).1.symm
  · rcases hinv.2 b hacc with ⟨hbar, hcand, -⟩
    rw [hbar]
    exact le_of_lt hcand.1

/-- One loop iteration preserves the invariant. -/
lemma opt_step_inv (M : PerfModel n) (h : Holdings n)
    (done : List (List (Quote n))) (acc : Option (List (Quote n)) × ℚ)
    (c : List (Quote n)) (hinv : opt_inv M h done acc) :
    opt_inv M h (done ++ [c]) (opt_step M h acc c) := by
  have hbase := opt_inv_base_le M h done acc hinv
  by_cases hcond : acc.2 < find_performance M h (flip_oside c) ∧
      can_react h (flip_oside c) = true
  · have hstep : opt_step M h acc c = (some c, find_performance M h (flip_oside c)) := by
      simp only [opt_step]
      exact if_pos hcond
    rw [hstep]
    constructor
    · intro hn
      exact absurd hn (by simp)
    · intro b hb
      have hbc : c = b := by simpa using hb
      subst hbc
      refine ⟨rfl, ⟨lt_of_le_of_lt hbase hcond.1, hcond.2⟩, done, [], rfl, ?_, by simp⟩
      intro x hx hcx
      rcases hacc : acc.1 with _ | b0
      · exact absurd hcx ((hinv.1 hacc).2 x hx)
      · rcases hinv.2 b0 hacc with ⟨hbar, -, l1, l2, hdone, hl1, hl2⟩
        have hlt : acc.2 < improvement M h c := hcond.1
        rw [hbar] at hlt
        rw [hdone] at hx
        rcases List.mem_append.mp hx with hx1 | hx2
        · exact lt_trans (hl1 x hx1 hcx) hlt
        · rcases List.mem_cons.mp hx2 with rfl | hx3
          · exact hlt
          · exact lt_of_le_of_lt (hl2 x hx3 hcx) hlt
  · have hstep : opt_step M h acc c = acc := by
      simp only [opt_step]
      exact if_neg hcond
    rw [hstep]
    constructor
    · intro hn
      rcases hinv.1 hn with ⟨hbar, hnone⟩
      refine ⟨hbar, ?_⟩
      intro x hx
      rcases List.mem_append.mp hx with hx1 | hx2
      · exact hnone x hx1
      · rw [List.mem_singleton] at hx2
        subst hx2
        intro hcx
        apply hcond
        refine ⟨?_, hcx.2⟩
        rw [hbar]
        exact hcx.1
    · intro b hb
      rcases hinv.2 b hb with ⟨hbar, hcand, l1, l2, hdone, hl1, hl2⟩
      refine ⟨hbar, hcand, l1, l2 ++ [c], by rw [hdone]; simp, hl1, ?_⟩
      intro x hx hcx
      rcases List.mem_append.mp hx with hx1 | hx2
      · exact hl2 x hx1 hcx
      · rw [List.mem_singleton] at hx2
        subst hx2
        by_contra hgt
        push_neg at hgt
        apply hcond
        refine ⟨?_, hcx.2⟩
        rw [hbar]
        exact hgt

/-- Folding the loop over any remaining combo list preserves the
invariant. -/
lemma foldl_opt_inv (M : PerfModel n) (h : Holdings n)
    (rest : List (List (Quote n))) :
    ∀ (done : List (List (Quote n))) (acc : Option (List (Quote n)) × ℚ),
      opt_inv M h done acc →
      opt_inv M h (done ++ rest) (rest.foldl (opt_step M h) acc) := by
  induction rest with
  | nil =>
    intro done acc hinv
    simpa using hinv
  | cons c rest ih =>
    intro done acc hinv
    have hrec := ih (done ++ [c]) (opt_step M h acc c) (opt_step_inv M h done acc c hinv)
    simpa [List.append_assoc] using hrec

/-- Claim C1: the search of `is_portfolio_optimal` declares the portfolio
optimal exactly when no subset of the best quotes is a candidate (strictly
improving and fundable, so improving-but-infeasible subsets never make the
verdict non-optimal); and when it returns a combo, that combo is a
candidate positioned in the enumeration (increasing subset size, then
combination order) so that every earlier candidate improves strictly less
and every later candidate improves no more: it is the first subset
attaining the maximum improvement. -/
theorem is_portfolio_optimal_spec (M : PerfModel n) (h : Holdings n)
    (qs : List (Quote n)) :
    (is_portfolio_optimal M h qs = true ↔
      ∀ c ∈ all_combos qs, ¬ is_candidate M h c) ∧
    (∀ b, is_portfolio_optimal_combo M h qs = some b →
      is_candidate M h b ∧
      ∃ l1 l2, all_combos qs = l1 ++ b :: l2 ∧
        (∀ c ∈ l1, is_candidate M h c → improvement M h c < improvement M h b) ∧
        (∀ c ∈ l2, is_candidate M h c → improvement M h c ≤ improvement M h b)) := by
  have h0 : opt_inv M h [] ((none : Option (List (Quote n))), find_performance_base M h) := by
    constructor
    · intro _
      refine ⟨rfl, ?_⟩
      intro c hc
      cases hc
    · intro b hb
      exact Option.noConfusion hb
  have hinv := foldl_opt_inv M h (all_combos qs) [] (none, find_performance_base M h) h0
  rw [List.nil_append] at hinv
  constructor
  · constructor
    · intro hopt c hc
      have hn : is_portfolio_optimal_combo M h qs = none :=
        Option.isNone_iff_eq_none.mp hopt
      exact (hinv.1 hn).2 c hc
    · intro hall
      unfold is_portfolio_optimal
      rw [Option.isNone_iff_eq_none]
      rcases hacc : is_portfolio_optimal_combo M h qs with _ | b
      · rfl
      · rcases hinv.2 b hacc with ⟨-, hcand, l1, l2, hsplit, -, -⟩
        refine absurd hcand (hall b ?_)
        rw [hsplit]
        exact List.mem_append_right _ (List.mem_cons_self b l2)
  · intro b hb
    rcases hinv.2 b hb with ⟨-, hcand, l1, l2, hsplit, hl1, hl2⟩
    exact ⟨hcand, l1, l2, hsplit, hl1, hl2⟩

/-- The witness baseline performance is 0. -/
lemma ex_base : find_performance_base exModel exHoldings = 0 := by
  simp [find_performance_base, find_performance_of, exModel, exHoldings, to_dollar]

/-- Buying the 100-cent ask moves the witness performance to 1 dollar. -/
lemma ex_imp : find_performance exModel exHoldings (flip_oside [exQuote]) = 1 := by
  simp [find_performance, flip_oside, exQuote, find_performance_of, adj_holdings,
    adj_cash, order_adjust, exModel, exHoldings, to_dollar, Fin.sum_univ_one]
  norm_num

/-- The witness holdings can fund the flipped counter-trade. -/
lemma ex_react : can_react exHoldings (flip_oside [exQuote]) = true := by decide

/-- The combo enumeration over the single witness quote. -/
lemma ex_combos : all_combos [exQuote] = [[], [exQuote]] := rfl

/-- The witness search returns the singleton combo. -/
lemma ex_combo_some :
    is_portfolio_optimal_combo exModel exHoldings [exQuote] = some [exQuote] := by
  unfold is_portfolio_optimal_combo
  rw [ex_combos]
  simp only [List.foldl_cons, List.foldl_nil, opt_step]
  rw [show flip_oside ([] : List (Quote 1)) = [] from rfl]
  rw [show find_performance exModel exHoldings [] = find_performance_base exModel exHoldings
    from rfl]
  rw [ex_base, ex_imp, ex_react]
  norm_num

/-- Claim C1, witness: on the one-security instance the search selects the
singleton combo, which is a candidate placed in the enumeration with no
earlier candidate as good and no later candidate better. -/
theorem is_portfolio_optimal_spec_witness :
    is_candidate exModel exHoldings [exQuote] ∧
    ∃ l1 l2, all_combos [exQuote] = l1 ++ [exQuote] :: l2 ∧
      (∀ c ∈ l1, is_candidate exModel exHoldings c →
        improvement exModel exHoldings c < improvement exModel exHoldings [exQuote]) ∧
      (∀ c ∈ l2, is_candidate exModel exHoldings c →
        improvement exModel exHoldings c ≤ improvement exModel exHoldings [exQuote]) :=
  (is_portfolio_optimal_spec exModel exHoldings [exQuote]).2 [exQuote] ex_combo_some

/-- Claim C6: with T = sessionTime * MM_PROPORTION > 0 and MARGIN_MAX = 50,
the margin curve is monotonically non-increasing across [0, T]; at T/2 it
equals 25 = MAX_MARGIN / 2 exactly; at 0 it lies in (25, 50], the upper
half of the range (margin(0) close to MAX_MARGIN); at T it lies in (0, 25],
the small tail of the logistic (margin(T) close to zero). -/
theorem find_margin_spec (S P : ℝ) (hb : 0 < S * P) :
    (∀ t1 t2 : ℝ, 0 ≤ t1 → t1 ≤ t2 → t2 ≤ S * P →
      find_margin S P 50 t2 ≤ find_margin S P 50 t1) ∧
    find_margin S P 50 (S * P / 2) = 25 ∧
    (25 < find_margin S P 50 0 ∧ find_margin S P 50 0 ≤ 50) ∧
    (0 < find_margin S P 50 (S * P) ∧ find_margin S P 50 (S * P) ≤ 25) := by
  have hb2 : 0 < S * P / 2 := by linarith
  have hsq : 0 < Real.sqrt (S * P / 2) := Real.sqrt_pos.mpr hb2
  have h0arg : 1 / Real.sqrt (S * P / 2) * ((0 : ℝ) - S * P / 2)
      = -Real.sqrt (S * P / 2) := by
    rw [zero_sub, mul_neg, one_div_mul_eq_div, Real.div_sqrt]
  have hTarg : 1 / Real.sqrt (S * P / 2) * (S * P - S * P / 2)
      = Real.sqrt (S * P / 2) := by
    rw [show S * P - S * P / 2 = S * P / 2 by ring, one_div_mul_eq_div, Real.div_sqrt]
  refine ⟨?_, ?_, ⟨?_, ?_⟩, ⟨?_, ?_⟩⟩
  · intro t1 t2 h0 h12 hT
    unfold find_margin
    apply Int.ceil_le_ceil
    have harg : 1 / Real.sqrt (S * P / 2) * (t1 - S * P / 2)
        ≤ 1 / Real.sqrt (S * P / 2) * (t2 - S * P / 2) :=
      mul_le_mul_of_nonneg_left (sub_le_sub_right h12 _)
        (le_of_lt (one_div_pos.mpr hsq))
    exact div_le_div_of_nonneg_left (by norm_num) (by positivity)
      (add_le_add_left (Real.exp_le_exp.mpr harg) 1)
  · unfold find_margin
    rw [sub_self, mul_zero, Real.exp_zero]
    rw [show (50 : ℝ) / (1 + 1) = ((25 : ℤ) : ℝ) by norm_num, Int.ceil_intCast]
  · unfold find_margin
    rw [h0arg]
    have hexp : Real.exp (-Real.sqrt (S * P / 2)) < 1 := by
      rw [show (1 : ℝ) = Real.exp 0 from (Real.exp_zero).symm]
      exact Real.exp_lt_exp.mpr (by linarith)
    have hpos : (0 : ℝ) < 1 + Real.exp (-Real.sqrt (S * P / 2)) := by positivity
    apply Int.lt_ceil.mpr
    push_cast
    rw [lt_div_iff₀ hpos]
    linarith
  · unfold find_margin
    rw [h0arg]
    have hone : (1 : ℝ) ≤ 1 + Real.exp (-Real.sqrt (S * P / 2)) := by
      have := Real.exp_pos (-Real.sqrt (S * P / 2))
      linarith
    apply Int.ceil_le.mpr
    push_cast
    exact div_le_self (by norm_num) hone
  · unfold find_margin
    rw [hTarg]
    apply Int.lt_ceil.mpr
    push_cast
    positivity
  · unfold find_margin
    rw [hTarg]
    have hexp : 1 < Real.exp (Real.sqrt (S * P / 2)) := by
      rw [show (1 : ℝ) = Real.exp 0 from (Real.exp_zero).symm]
      exact Real.exp_lt_exp.mpr (by linarith)
    have hpos : (0 : ℝ) < 1 + Real.exp (Real.sqrt (S * P / 2)) := by positivity
    apply Int.ceil_le.mpr
    push_cast
    rw [div_le_iff₀ hpos]
    linarith

/-- Claim C6, witness: with session time 10 and phase fraction 1/5 the
margin at the phase midpoint is exactly 25. -/
theorem find_margin_spec_witness :
    find_margin 10 (1 / 5) 50 (10 * (1 / 5) / 2) = 25 :=
  (find_margin_spec 10 (1 / 5) (by norm_num)).2.1
